import Mathlib

/-!
Shallow embedding of the Rivine consensus core: the processed-block /
difficulty-retarget functions of `modules/consensus/processedblock.go` and the
signature-validation functions of `types/signatures.go`, together with proofs
about them.

Machine integers are modelled as `Nat` with explicit reduction modulo `2 ^ 64`
where Go's `uint64` arithmetic can overflow; Go's `int64(x)` conversion of a
`uint64` is modelled by `toInt64`.  `big.Rat` values are modelled as `ℚ`.
-/

namespace Rivine

/-- The modulus of Go's `uint64` arithmetic. -/
def U64 : Nat := 2 ^ 64

/-- The number of values of a 256-bit unsigned integer (targets are 256-bit). -/
def U256 : Nat := 2 ^ 256

/-- Go's conversion `int64(x)` of a `uint64` value: two's-complement
reinterpretation of `x mod 2^64`. -/
def toInt64 (n : Nat) : Int :=
  if n % U64 < 2 ^ 63 then ((n % U64 : Nat) : Int)
  else ((n % U64 : Nat) : Int) - (U64 : Int)

/-- Go's conversion `uint64(m)` of an `int` (64-bit) value: reduction modulo
`2^64` of the two's-complement bit pattern. -/
def toUInt64ofInt (m : Int) : Nat := (m % (U64 : Int)).toNat

/-!
### Targets

A `Target` is a 256-bit unsigned integer (spec §3); we model it as its `Nat`
value.  The file `types/target.go` that implements `RatToTarget`,
`Target.AddDifficulties`, `Target.MulDifficulty` and `Target.Cmp` is not part
of the sources; those four operations are modelled from the spec, which says
that target ordering is plain integer comparison with smaller meaning heavier,
that `Depth` accumulates *inverse-scaled* target contributions, and that
rational results are converted back to integer targets.
-/

/-- A target value: the integer value of a 256-bit unsigned integer. -/
abbrev Target := Nat

/-- Modelled from the spec: `RatToTarget` of the missing `types/target.go`
converts a rational back to an integer target, truncating to an integer and
clamping into the 256-bit range. -/
def RatToTarget (q : ℚ) : Target := min (⌊q⌋.toNat) (U256 - 1)

/-- Modelled from the spec: `Target.Cmp` of the missing `types/target.go`
compares two targets as integers, returning -1, 0 or 1 in Go style. -/
def TargetCmp (a b : Target) : Int :=
  if a < b then -1 else if b < a then 1 else 0

/-- Modelled from the spec: `Target.AddDifficulties` of the missing
`types/target.go` adds two targets in difficulty (inverse) space: the result
is the inverse of the sum of the inverses, converted back to a target. -/
def AddDifficulties (t y : Target) : Target :=
  RatToTarget (1 / (1 / (t : ℚ) + 1 / (y : ℚ)))

/-- Modelled from the spec: `Target.MulDifficulty` of the missing
`types/target.go` multiplies a target's difficulty (its inverse) by a
rational, converting the inverse of the product back to a target. -/
def MulDifficulty (t : Target) (q : ℚ) : Target :=
  RatToTarget (1 / ((1 / (t : ℚ)) * q))

/-!
### Chain constants

`processedblock.go` refers to package-level `types.TargetWindow`,
`types.BlockFrequency`, `types.MaxAdjustmentUp` and `types.MaxAdjustmentDown`;
`types/constants.go` in the sources groups exactly these values in the
`ChainConstants` configuration structure, so the consensus functions below are
parameterized by such a structure.
-/

/-- The chain configuration constants used by the retarget engine
(`types/constants.go`). -/
structure ChainConstants where
  TargetWindow : Nat
  BlockFrequency : Nat
  MaxAdjustmentUp : ℚ
  MaxAdjustmentDown : ℚ

/-!
### Blocks and processed blocks
-/

/-- The fields of a block relevant to the consensus functions: its parent ID,
its timestamp, and its own ID (`b.ID()` abstracts the hash of the block; block
IDs are modelled as `Nat`, with `0` playing the role of the zero
`types.BlockID{}`). -/
structure Block where
  parentID : Nat
  timestamp : Nat
  id : Nat
deriving DecidableEq

/-- `processedBlock` of `modules/consensus/processedblock.go`.  The diff lists
live in the `modules` package, which is not part of the sources; they are
irrelevant to every consensus function here and are modelled opaquely. -/
structure ProcessedBlock where
  block : Block
  Height : Nat
  Depth : Target
  ChildTarget : Target
  DiffsGenerated : Bool := false
  CoinOutputDiffs : List Nat := []
  BlockStakeOutputDiffs : List Nat := []
  DelayedCoinOutputDiffs : List Nat := []
  ConsensusChecksum : Nat := 0
deriving DecidableEq

/-- `SurpassThreshold` of `modules/consensus/processedblock.go`: the rational
`big.NewRat(20, 100)`. -/
def SurpassThreshold : ℚ := 20 / 100

/-- `heavierThan` of `modules/consensus/processedblock.go`: `pb` is
sufficiently heavier than `cmp` when `cmp.Depth` plus the surpass margin still
compares greater (as a target integer) than `pb.Depth`. -/
def heavierThan (pb cmp : ProcessedBlock) : Bool :=
  let requirement := AddDifficulties cmp.Depth (MulDifficulty cmp.ChildTarget SurpassThreshold)
  decide (TargetCmp requirement pb.Depth > 0)

/-- `childDepth` of `modules/consensus/processedblock.go`: the depth of a
node's children, the difficulty-space sum of the node's depth and its child
target. -/
def childDepth (pb : ProcessedBlock) : Target :=
  AddDifficulties pb.Depth pb.ChildTarget

/-!
### The retarget walk

The block map (bolt bucket `BlockMap`) is modelled as a total function from
block IDs to processed blocks;
`pb.Block.UnmarshalBlockHeadersParentIDAndTS(blockMap.Get(id))` becomes reading
`(bm id).block.parentID` and `(bm id).block.timestamp`.
-/

/-- The `for` loop of `targetAdjustmentBase`: starting from `current` and its
parent ID `parent`, walk parent links while fuel (the remaining iterations out
of `TargetWindow`) is positive and the parent ID is non-zero.  Returns the
final `current` and the number of iterations performed (`windowSize`). -/
def tabLoop (bm : Nat → ProcessedBlock) : Nat → Nat → Nat → Nat × Nat
  | 0, current, _ => (current, 0)
  | fuel + 1, current, parent =>
    if parent = 0 then (current, 0)
    else
      let r := tabLoop bm fuel parent (bm parent).block.parentID
      (r.1, r.2 + 1)

/-- The result of the full `targetAdjustmentBase` walk: the ID of the
window-start block (`current` after the loop) and the number of iterations
(`windowSize`). -/
def tabWindow (cc : ChainConstants) (bm : Nat → ProcessedBlock)
    (pb : ProcessedBlock) : Nat × Nat :=
  tabLoop bm cc.TargetWindow pb.block.id pb.block.parentID

/-- Go's wrapping `uint64` subtraction `a - b`. -/
def subU64 (a b : Nat) : Nat := ((a % U64) + U64 - (b % U64)) % U64

/-- `targetAdjustmentBase` of `modules/consensus/processedblock.go`: walk back
from the node's parent for at most `TargetWindow` steps (stopping at the
genesis block, whose parent ID is zero), then return
`big.NewRat(int64(timePassed), int64(expectedTimePassed))` where
`timePassed = pb.Block.Timestamp - timestamp` is a wrapping `uint64`
subtraction and `expectedTimePassed = BlockFrequency * windowSize` a wrapping
`uint64` product.  `big.NewRat` panics when its denominator is zero; the panic
is modelled as `none`. -/
def targetAdjustmentBase (cc : ChainConstants) (bm : Nat → ProcessedBlock)
    (pb : ProcessedBlock) : Option ℚ :=
  let w := tabWindow cc bm pb
  let timestamp := (bm w.1).block.timestamp
  let timePassed := subU64 pb.block.timestamp timestamp
  let expectedTimePassed := (cc.BlockFrequency * w.2) % U64
  if toInt64 expectedTimePassed = 0 then none
  else some ((toInt64 timePassed : ℚ) / (toInt64 expectedTimePassed : ℚ))

/-- `clampTargetAdjustment` of `modules/consensus/processedblock.go`: clamp the
base adjustment into the configured bounds. -/
def clampTargetAdjustment (cc : ChainConstants) (base : ℚ) : ℚ :=
  if cc.MaxAdjustmentUp < base then cc.MaxAdjustmentUp
  else if base < cc.MaxAdjustmentDown then cc.MaxAdjustmentDown
  else base

/-- `setChildTarget` of `modules/consensus/processedblock.go`: outside a
half-window boundary the child target is inherited from the parent; on a
boundary the parent's child target (as a rational) is multiplied by the
clamped adjustment and converted back to a target.  The `none` of
`targetAdjustmentBase` (a Go panic) propagates. -/
def setChildTarget (cc : ChainConstants) (bm : Nat → ProcessedBlock)
    (pb : ProcessedBlock) : Option ProcessedBlock :=
  let parent := bm pb.block.parentID
  if pb.Height % (cc.TargetWindow / 2) ≠ 0 then
    some { pb with ChildTarget := parent.ChildTarget }
  else
    match targetAdjustmentBase cc bm pb with
    | none => none
    | some base =>
      let adjustment := clampTargetAdjustment cc base
      some { pb with ChildTarget := RatToTarget ((parent.ChildTarget : ℚ) * adjustment) }

/-- `newChild` of `modules/consensus/processedblock.go`: build the child node
with height `pb.Height + 1` (a wrapping `uint64` increment) and depth
`pb.childDepth()`, then let `setChildTarget` fill in its child target.  The
database `Put` does not affect the returned node and is not modelled. -/
def newChild (cc : ChainConstants) (bm : Nat → ProcessedBlock)
    (pb : ProcessedBlock) (b : Block) : Option ProcessedBlock :=
  let child : ProcessedBlock :=
    { block := b
      Height := (pb.Height + 1) % U64
      Depth := childDepth pb
      ChildTarget := 0 }
  setChildTarget cc bm child

/-!
### Transactions and signatures (`types/signatures.go`)

The `Transaction` data type itself lives in the `types` package file that is
not among the sources; it is modelled from the spec (§3): coin and block-stake
inputs referencing a parent output ID and carrying an `Unlocker`, coin and
block-stake outputs, miner fees, arbitrary data and a signature list.  Output,
fee and arbitrary-data entries are opaque to every function here and are
modelled as `Nat` encodings.  Go errors are modelled by `Option RivErr`
(`none` = `nil`).
-/

/-- The Go `error` values signature validation can produce:
`ErrDoubleSpend`, or any other error an unlocker reports (opaque code). -/
inductive RivErr where
  | ErrDoubleSpend : RivErr
  | ErrOther : Nat → RivErr
deriving DecidableEq

/-- Modelled from the spec: an input's `Unlocker` (the unlock-condition types
live outside the sources).  `condition` encodes the unlock conditions the
unlock hash commits to, `fulfillment` the signature data used to prove them,
and `unlock i` is the verdict of `Unlocker.Unlock(i, tx)` — since
`validSignatures` always passes the enclosing transaction itself, the
capability is modelled as a function of the input index alone. -/
structure Unlocker where
  condition : Nat
  fulfillment : Nat
  unlock : Nat → Option RivErr

/-- Modelled from the spec: `Unlocker.UnlockHash()` commits to the unlock
condition only, never to the fulfillment/signature data. -/
def UnlockHash (u : Unlocker) : Nat := u.condition

/-- A coin input: a `CoinOutputID` it consumes plus its unlocker. -/
structure CoinInput where
  parentID : Nat
  unlocker : Unlocker

/-- A block-stake input: a `BlockStakeOutputID` it consumes plus its
unlocker.  A distinct type from `CoinInput`, as in the source, where the two
parent-ID types are distinct namespaces over the same byte representation. -/
structure BlockStakeInput where
  parentID : Nat
  unlocker : Unlocker

/-- Modelled from the spec: the transaction record of §3. -/
structure Transaction where
  CoinInputs : List CoinInput
  CoinOutputs : List Nat
  BlockStakeInputs : List BlockStakeInput
  BlockStakeOutputs : List Nat
  MinerFees : List Nat
  ArbitraryData : List Nat
  Signatures : List Nat

/-- One field written to the `InputSigHash` hasher, as the pair of an encoding
tag (which field) and its opaque payload; the hash preimage is the list of
fields in write order. -/
abbrev SigHashField := Nat × List Nat

/-- `InputSigHash` of `types/signatures.go`.  The `crypto` package is outside
the sources, so the hash is modelled by its preimage: the exact sequence of
fields the function feeds to the hasher — the input index, each coin input's
parent ID and unlock hash, the coin outputs, each block-stake input's parent
ID and unlock hash, the block-stake outputs, the miner fees and the arbitrary
data; equal preimages give equal hashes.  The transaction's signature list is
never written. -/
def InputSigHash (t : Transaction) (inputIndex : Nat) : List SigHashField :=
  (0, [inputIndex]) ::
    (t.CoinInputs.map fun ci => (1, [ci.parentID, UnlockHash ci.unlocker])) ++
    [(2, t.CoinOutputs)] ++
    (t.BlockStakeInputs.map fun bsi => (3, [bsi.parentID, UnlockHash bsi.unlocker])) ++
    [(4, t.BlockStakeOutputs), (5, t.MinerFees), (6, t.ArbitraryData)]

/-- `sortedUnique` of `types/signatures.go`: the running maximum scan.  `max`
is a Go `int` (modelled as `Int`); the final check compares the last element
against `uint64(max)`. -/
def sortedUniqueLoop (biggest : Nat) (elems : List Nat) (max : Int) : Bool :=
  match elems with
  | [] => decide (¬ biggest ≥ toUInt64ofInt max)
  | e :: rest => if e ≤ biggest then false else sortedUniqueLoop e rest max

/-- `sortedUnique` of `types/signatures.go`: true when `elems` is strictly
increasing and its largest element is below `uint64(max)`. -/
def sortedUnique (elems : List Nat) (max : Int) : Bool :=
  match elems with
  | [] => true
  | e :: rest => sortedUniqueLoop e rest max

/-- One spend loop of `validSignatures`: walk the inputs (as pairs of parent
ID and unlock capability) with the running input index and the set of already
consumed parent IDs, rejecting a revisited parent ID with `ErrDoubleSpend` and
otherwise asking the unlocker. -/
def spendLoop : List (Nat × (Nat → Option RivErr)) → Nat → List Nat → Option RivErr
  | [], _, _ => none
  | (pid, unlock) :: rest, index, spent =>
    if pid ∈ spent then some RivErr.ErrDoubleSpend
    else
      match unlock index with
      | some e => some e
      | none => spendLoop rest (index + 1) (pid :: spent)

/-- `validSignatures` of `types/signatures.go`: run the coin-input spend loop
with a fresh spent set, then the block-stake spend loop with its own fresh
spent set.  `currentHeight` is threaded as in the source (which never reads
it). -/
def validSignatures (t : Transaction) (_currentHeight : Nat) : Option RivErr :=
  match spendLoop (t.CoinInputs.map fun ci => (ci.parentID, ci.unlocker.unlock)) 0 [] with
  | some e => some e
  | none =>
    spendLoop (t.BlockStakeInputs.map fun bsi => (bsi.parentID, bsi.unlocker.unlock)) 0 []

/-!
## Theorems
-/

/-- `TargetCmp a b` is positive exactly when `b < a` as target integers. -/
lemma targetCmp_pos_iff (a b : Nat) : TargetCmp a b > 0 ↔ b < a := by
  unfold TargetCmp
  split_ifs with h1 h2
  · exact ⟨fun hx => absurd hx (by decide), fun hx => absurd hx (Nat.lt_asymm h1)⟩
  · exact ⟨fun _ => h2, fun _ => by decide⟩
  · exact ⟨fun hx => absurd hx (by decide), fun hx => absurd hx h2⟩

/-- C1: for every pair of processed blocks, `heavierThan(candidate, current)`
returns true if and only if
`current.Depth.AddDifficulties(current.ChildTarget.MulDifficulty(SurpassThreshold))`
compares strictly greater than `candidate.Depth` as a target integer (the
ordering in which the smaller target value is the heavier chain), with
`SurpassThreshold` equal to the rational `20/100`. -/
theorem heavierThan_characterization :
    (∀ candidate current : ProcessedBlock,
      heavierThan candidate current = true ↔
        candidate.Depth <
          AddDifficulties current.Depth
            (MulDifficulty current.ChildTarget SurpassThreshold)) ∧
    SurpassThreshold = 20 / 100 := by
  refine ⟨fun candidate current => ?_, rfl⟩
  simp only [heavierThan, decide_eq_true_eq]
  exact targetCmp_pos_iff _ _

/-- C8: `clampTargetAdjustment` returns `MaxAdjustmentUp` above the upper
bound, `MaxAdjustmentDown` below the lower bound, the base itself in between,
and its result always lies in `[MaxAdjustmentDown, MaxAdjustmentUp]`
(well-defined whenever the configured bounds are ordered, as they are in every
configuration of `types/constants.go`). -/
theorem clampTargetAdjustment_bounds (cc : ChainConstants) (base : ℚ)
    (h : cc.MaxAdjustmentDown ≤ cc.MaxAdjustmentUp) :
    (cc.MaxAdjustmentUp < base → clampTargetAdjustment cc base = cc.MaxAdjustmentUp) ∧
    (base < cc.MaxAdjustmentDown → clampTargetAdjustment cc base = cc.MaxAdjustmentDown) ∧
    (cc.MaxAdjustmentDown ≤ base → base ≤ cc.MaxAdjustmentUp →
      clampTargetAdjustment cc base = base) ∧
    cc.MaxAdjustmentDown ≤ clampTargetAdjustment cc base ∧
    clampTargetAdjustment cc base ≤ cc.MaxAdjustmentUp := by
  unfold clampTargetAdjustment
  split_ifs with h1 h2 <;>
    refine ⟨fun h3 => ?_, fun h4 => ?_, fun h5 h6 => ?_, ?_, ?_⟩ <;>
    first | rfl | linarith

/-- The `dev` configuration's retarget constants of `types/constants.go`. -/
def ccDev : ChainConstants :=
  { TargetWindow := 20
    BlockFrequency := 12
    MaxAdjustmentUp := 120 / 100
    MaxAdjustmentDown := 100 / 120 }

/-- Witness for C8 at the `dev` constants and base `3`. -/
theorem clampTargetAdjustment_bounds_witness :
    ccDev.MaxAdjustmentDown ≤ clampTargetAdjustment ccDev 3 ∧
    clampTargetAdjustment ccDev 3 ≤ ccDev.MaxAdjustmentUp := by
  have h := clampTargetAdjustment_bounds ccDev 3 (by norm_num [ccDev])
  exact ⟨h.2.2.2.1, h.2.2.2.2⟩

/-- C10: a transaction with no coin inputs and no block-stake inputs passes
`validSignatures` at every height: both spend loops run over empty lists and
the function returns `nil`, whatever the outputs, fees or arbitrary data. -/
theorem validSignatures_no_inputs (t : Transaction) (currentHeight : Nat)
    (hc : t.CoinInputs = []) (hb : t.BlockStakeInputs = []) :
    validSignatures t currentHeight = none := by
  simp [validSignatures, hc, hb, spendLoop]

/-- An inputless transaction with non-trivial outputs, fees and data. -/
def tNoInputs : Transaction :=
  { CoinInputs := []
    CoinOutputs := [3]
    BlockStakeInputs := []
    BlockStakeOutputs := [4]
    MinerFees := [5]
    ArbitraryData := [6]
    Signatures := [7] }

/-- Witness for C10 at a concrete inputless transaction and height 42. -/
theorem validSignatures_no_inputs_witness : validSignatures tNoInputs 42 = none :=
  validSignatures_no_inputs tNoInputs 42 rfl rfl

/-- The running-maximum loop of `sortedUnique` accepts exactly the tails that
keep the whole list strictly increasing with every element below
`uint64(max)`. -/
lemma sortedUniqueLoop_iff (l : List Nat) :
    ∀ (b : Nat) (max : Int),
      sortedUniqueLoop b l max = true ↔
        List.Chain' (· < ·) (b :: l) ∧ ∀ e ∈ b :: l, e < toUInt64ofInt max := by
  induction l with
  | nil =>
    intro b max
    simp [sortedUniqueLoop]
  | cons e rest ih =>
    intro b max
    rw [sortedUniqueLoop]
    by_cases hle : e ≤ b
    · simp only [if_pos hle]
      constructor
      · intro hx; exact absurd hx (by decide)
      · intro ⟨hch, _⟩
        rw [List.chain'_cons] at hch
        exact absurd hch.1 (by omega)
    · simp only [if_neg hle]
      rw [ih e max]
      constructor
      · intro ⟨hch, hall⟩
        refine ⟨List.chain'_cons.mpr ⟨by omega, hch⟩, ?_⟩
        intro x hx
        rcases List.mem_cons.mp hx with hx | hx
        · subst hx
          have he : e < toUInt64ofInt max := hall e (List.mem_cons_self e rest)
          omega
        · exact hall x hx
      · intro ⟨hch, hall⟩
        exact ⟨(List.chain'_cons.mp hch).2, fun x hx => hall x (List.mem_cons_of_mem b hx)⟩

/-- C7 (amended): `sortedUnique(elems, max)` returns true if and only if
`elems` is strictly increasing (hence duplicate-free) and every element is
strictly below `uint64(max)` — the Go conversion of the `int` bound `max` to
`uint64`, which equals `max` itself whenever `0 ≤ max < 2^64`.  The second
conjunct records that equality, so for non-negative bounds the original
reading ("strictly below max") holds. -/
theorem sortedUnique_iff :
    (∀ (elems : List Nat) (max : Int),
      sortedUnique elems max = true ↔
        List.Pairwise (· < ·) elems ∧ ∀ e ∈ elems, e < toUInt64ofInt max) ∧
    (∀ max : Int, 0 ≤ max → max < (U64 : Int) → (toUInt64ofInt max : Int) = max) := by
  constructor
  · intro elems max
    rw [← List.chain'_iff_pairwise]
    cases elems with
    | nil => simp [sortedUnique]
    | cons e rest => exact (sortedUniqueLoop_iff rest e max)
  · intro max h0 hlt
    have : max % (U64 : Int) = max := Int.emod_eq_of_lt h0 hlt
    simp [toUInt64ofInt, this, Int.toNat_of_nonneg h0]

/-- Counterexample to C7 as stated: at the list `[0]` and the negative bound
`max = -1`, `sortedUnique` returns true although the element `0` is not
strictly below `max` — the Go conversion `uint64(max)` wraps the negative
bound to `2^64 - 1`. -/
theorem sortedUnique_negative_max_counterexample :
    sortedUnique [0] (-1) = true ∧ ¬ ((0 : Int) < -1) := ⟨by decide, by decide⟩

/-- A spend loop over inputs whose unlockers all succeed returns `nil` when
the parent IDs are duplicate-free and disjoint from the already-spent set. -/
lemma spendLoop_none :
    ∀ (l : List (Nat × (Nat → Option RivErr))) (index : Nat) (spent : List Nat),
      (∀ p ∈ l, ∀ i, p.2 i = none) →
      (l.map Prod.fst).Nodup →
      (∀ p ∈ l, p.1 ∉ spent) →
      spendLoop l index spent = none := by
  intro l
  induction l with
  | nil => intro index spent _ _ _; rfl
  | cons hd tl ih =>
    intro index spent hu hnd hdisj
    obtain ⟨pid, u⟩ := hd
    rw [spendLoop]
    rw [if_neg (hdisj (pid, u) (List.mem_cons_self _ _))]
    rw [show u index = none from hu (pid, u) (List.mem_cons_self _ _) index]
    rw [List.map_cons, List.nodup_cons] at hnd
    apply ih
    · intro p hp i; exact hu p (List.mem_cons_of_mem _ hp) i
    · exact hnd.2
    · intro p hp
      rw [List.mem_cons]
      rintro (heq | hsp)
      · apply hnd.1
        rw [← heq]
        exact List.mem_map.mpr ⟨p, hp, rfl⟩
      · exact hdisj p (List.mem_cons_of_mem _ hp) hsp

/-- A spend loop over inputs whose unlockers all succeed reports
`ErrDoubleSpend` when the parent IDs contain a repeat, or hit the
already-spent set. -/
lemma spendLoop_doubleSpend :
    ∀ (l : List (Nat × (Nat → Option RivErr))) (index : Nat) (spent : List Nat),
      (∀ p ∈ l, ∀ i, p.2 i = none) →
      (¬ (l.map Prod.fst).Nodup ∨ ∃ p ∈ l, p.1 ∈ spent) →
      spendLoop l index spent = some RivErr.ErrDoubleSpend := by
  intro l
  induction l with
  | nil =>
    intro index spent _ hbad
    rcases hbad with hbad | ⟨p, hp, _⟩
    · exact absurd List.nodup_nil hbad
    · exact absurd hp (List.not_mem_nil p)
  | cons hd tl ih =>
    intro index spent hu hbad
    obtain ⟨pid, u⟩ := hd
    rw [spendLoop]
    by_cases hmem : pid ∈ spent
    · rw [if_pos hmem]
    · rw [if_neg hmem]
      rw [show u index = none from hu (pid, u) (List.mem_cons_self _ _) index]
      apply ih
      · intro p hp i; exact hu p (List.mem_cons_of_mem _ hp) i
      · rcases hbad with hnd | ⟨p, hp, hps⟩
        · rw [List.map_cons, List.nodup_cons] at hnd
          by_cases hin : pid ∈ tl.map Prod.fst
          · rcases List.mem_map.mp hin with ⟨p, hp, hpe⟩
            exact Or.inr ⟨p, hp, by rw [hpe]; exact List.mem_cons_self _ _⟩
          · exact Or.inl fun hnd2 => hnd ⟨hin, hnd2⟩
        · rcases List.mem_cons.mp hp with heq | hp2
          · rw [heq] at hps
            exact absurd hps hmem
          · exact Or.inr ⟨p, hp2, List.mem_cons_of_mem _ hps⟩

/-- C3: with every individual unlock condition succeeding, `validSignatures`
reports `ErrDoubleSpend` exactly when the coin inputs repeat a
`CoinOutputID`, or the block-stake inputs repeat a `BlockStakeOutputID`; the
two duplicate-detection sets are separate, so when each list is
duplicate-free on its own the transaction passes — even when a coin input and
a block-stake input reference equal parent-ID values. -/
theorem validSignatures_double_spend (t : Transaction) (currentHeight : Nat)
    (hcu : ∀ ci ∈ t.CoinInputs, ∀ i, ci.unlocker.unlock i = none)
    (hbu : ∀ bsi ∈ t.BlockStakeInputs, ∀ i, bsi.unlocker.unlock i = none) :
    (¬ (t.CoinInputs.map CoinInput.parentID).Nodup →
      validSignatures t currentHeight = some RivErr.ErrDoubleSpend) ∧
    ((t.CoinInputs.map CoinInput.parentID).Nodup →
      ¬ (t.BlockStakeInputs.map BlockStakeInput.parentID).Nodup →
      validSignatures t currentHeight = some RivErr.ErrDoubleSpend) ∧
    ((t.CoinInputs.map CoinInput.parentID).Nodup →
      (t.BlockStakeInputs.map BlockStakeInput.parentID).Nodup →
      validSignatures t currentHeight = none) := by
  have hcmap :
      ((t.CoinInputs.map fun ci => (ci.parentID, ci.unlocker.unlock)).map Prod.fst) =
        t.CoinInputs.map CoinInput.parentID := by
    rw [List.map_map]; rfl
  have hbmap :
      ((t.BlockStakeInputs.map fun bsi => (bsi.parentID, bsi.unlocker.unlock)).map Prod.fst) =
        t.BlockStakeInputs.map BlockStakeInput.parentID := by
    rw [List.map_map]; rfl
  have hcu' : ∀ p : Nat × (Nat → Option RivErr),
      p ∈ (t.CoinInputs.map fun ci => (ci.parentID, ci.unlocker.unlock)) →
      ∀ i, p.2 i = none := by
    intro p hp i
    rcases List.mem_map.mp hp with ⟨ci, hci, rfl⟩
    exact hcu ci hci i
  have hbu' : ∀ p : Nat × (Nat → Option RivErr),
      p ∈ (t.BlockStakeInputs.map fun bsi => (bsi.parentID, bsi.unlocker.unlock)) →
      ∀ i, p.2 i = none := by
    intro p hp i
    rcases List.mem_map.mp hp with ⟨bsi, hbsi, rfl⟩
    exact hbu bsi hbsi i
  refine ⟨fun hdup => ?_, fun hcnd hdup => ?_, fun hcnd hbnd => ?_⟩
  · have := spendLoop_doubleSpend
      (t.CoinInputs.map fun ci => (ci.parentID, ci.unlocker.unlock)) 0 []
      hcu' (Or.inl (hcmap ▸ hdup))
    simp [validSignatures, this]
  · have hc := spendLoop_none
      (t.CoinInputs.map fun ci => (ci.parentID, ci.unlocker.unlock)) 0 []
      hcu' (hcmap ▸ hcnd) (fun p _ => List.not_mem_nil p.1)
    have hb := spendLoop_doubleSpend
      (t.BlockStakeInputs.map fun bsi => (bsi.parentID, bsi.unlocker.unlock)) 0 []
      hbu' (Or.inl (hbmap ▸ hdup))
    simp [validSignatures, hc, hb]
  · have hc := spendLoop_none
      (t.CoinInputs.map fun ci => (ci.parentID, ci.unlocker.unlock)) 0 []
      hcu' (hcmap ▸ hcnd) (fun p _ => List.not_mem_nil p.1)
    have hb := spendLoop_none
      (t.BlockStakeInputs.map fun bsi => (bsi.parentID, bsi.unlocker.unlock)) 0 []
      hbu' (hbmap ▸ hbnd) (fun p _ => List.not_mem_nil p.1)
    simp [validSignatures, hc, hb]

/-- An unlocker that always succeeds (no error, whatever the index). -/
def noopUnlocker : Unlocker :=
  { condition := 0, fulfillment := 0, unlock := fun _ => none }

/-- A transaction spending coin output 5 twice. -/
def tDoubleSpend : Transaction :=
  { CoinInputs := [⟨5, noopUnlocker⟩, ⟨5, noopUnlocker⟩]
    CoinOutputs := []
    BlockStakeInputs := []
    BlockStakeOutputs := []
    MinerFees := []
    ArbitraryData := []
    Signatures := [] }

/-- A transaction spending coin output 5 and block-stake output 5: the same
parent-ID value in the two separate namespaces. -/
def tSeparate : Transaction :=
  { CoinInputs := [⟨5, noopUnlocker⟩]
    CoinOutputs := []
    BlockStakeInputs := [⟨5, noopUnlocker⟩]
    BlockStakeOutputs := []
    MinerFees := []
    ArbitraryData := []
    Signatures := [] }

/-- Witness for C3: the intra-namespace duplicate is rejected with
`ErrDoubleSpend`, while equal coin and block-stake parent IDs pass. -/
theorem validSignatures_double_spend_witness :
    validSignatures tDoubleSpend 0 = some RivErr.ErrDoubleSpend ∧
    validSignatures tSeparate 0 = none := by
  constructor
  · refine (validSignatures_double_spend tDoubleSpend 0 ?_ ?_).1 ?_
    · intro ci hci i
      rcases List.mem_cons.mp hci with h | h
      · rw [h]; rfl
      · rcases List.mem_cons.mp h with h2 | h2
        · rw [h2]; rfl
        · exact absurd h2 (List.not_mem_nil ci)
    · intro bsi hbsi i; exact absurd hbsi (List.not_mem_nil bsi)
    · simp [tDoubleSpend]
  · refine (validSignatures_double_spend tSeparate 0 ?_ ?_).2.2 ?_ ?_
    · intro ci hci i
      rcases List.mem_cons.mp hci with h | h
      · rw [h]; rfl
      · exact absurd h (List.not_mem_nil ci)
    · intro bsi hbsi i
      rcases List.mem_cons.mp hbsi with h | h
      · rw [h]; rfl
      · exact absurd h (List.not_mem_nil bsi)
    · simp [tSeparate]
    · simp [tSeparate]

/-- C5: `InputSigHash` hashes exactly the input index, each coin input's
parent ID and unlock hash, the coin outputs, each block-stake input's parent
ID and unlock hash, the block-stake outputs, the miner fees and the arbitrary
data — never the signature data.  Two transactions identical except in their
signature data (the `Signatures` list and the fulfillment part of each
unlocker) therefore produce the same hash preimage at every input index. -/
theorem InputSigHash_ignores_signature_data (t1 t2 : Transaction)
    (hci : (t1.CoinInputs.map fun ci => (ci.parentID, ci.unlocker.condition)) =
           (t2.CoinInputs.map fun ci => (ci.parentID, ci.unlocker.condition)))
    (hco : t1.CoinOutputs = t2.CoinOutputs)
    (hbi : (t1.BlockStakeInputs.map fun bsi => (bsi.parentID, bsi.unlocker.condition)) =
           (t2.BlockStakeInputs.map fun bsi => (bsi.parentID, bsi.unlocker.condition)))
    (hbo : t1.BlockStakeOutputs = t2.BlockStakeOutputs)
    (hmf : t1.MinerFees = t2.MinerFees)
    (had : t1.ArbitraryData = t2.ArbitraryData) :
    ∀ inputIndex, InputSigHash t1 inputIndex = InputSigHash t2 inputIndex := by
  intro inputIndex
  unfold InputSigHash
  rw [hco, hbo, hmf, had]
  have h1 : (t1.CoinInputs.map fun ci => ((1 : Nat), [ci.parentID, UnlockHash ci.unlocker])) =
            (t2.CoinInputs.map fun ci => ((1 : Nat), [ci.parentID, UnlockHash ci.unlocker])) := by
    have h := congrArg (List.map fun pc : Nat × Nat => ((1 : Nat), [pc.1, pc.2])) hci
    simpa [List.map_map, Function.comp, UnlockHash] using h
  have h2 : (t1.BlockStakeInputs.map fun bsi => ((3 : Nat), [bsi.parentID, UnlockHash bsi.unlocker])) =
            (t2.BlockStakeInputs.map fun bsi => ((3 : Nat), [bsi.parentID, UnlockHash bsi.unlocker])) := by
    have h := congrArg (List.map fun pc : Nat × Nat => ((3 : Nat), [pc.1, pc.2])) hbi
    simpa [List.map_map, Function.comp, UnlockHash] using h
  rw [h1, h2]

/-- A one-coin-input, one-block-stake-input transaction with some signature
data. -/
def tSigA : Transaction :=
  { CoinInputs := [⟨9, ⟨4, 7, fun _ => none⟩⟩]
    CoinOutputs := [11]
    BlockStakeInputs := [⟨13, ⟨6, 8, fun _ => none⟩⟩]
    BlockStakeOutputs := [14]
    MinerFees := [15]
    ArbitraryData := [16]
    Signatures := [100] }

/-- The same transaction as `tSigA` with different signature data: other
fulfillments, other unlock verdicts, other signature list. -/
def tSigB : Transaction :=
  { CoinInputs := [⟨9, ⟨4, 70, fun _ => some (RivErr.ErrOther 1)⟩⟩]
    CoinOutputs := [11]
    BlockStakeInputs := [⟨13, ⟨6, 80, fun _ => some (RivErr.ErrOther 2)⟩⟩]
    BlockStakeOutputs := [14]
    MinerFees := [15]
    ArbitraryData := [16]
    Signatures := [200] }

/-- Witness for C5 at the concrete pair `tSigA`, `tSigB` and input index 0. -/
theorem InputSigHash_ignores_signature_data_witness :
    InputSigHash tSigA 0 = InputSigHash tSigB 0 :=
  InputSigHash_ignores_signature_data tSigA tSigB rfl rfl rfl rfl rfl rfl 0

/-- C4: off half-window boundaries `setChildTarget` copies the parent's child
target unchanged; on a boundary — whenever the adjustment-base computation
returns a value — it multiplies the parent's child target, as a rational, by
the clamped adjustment and converts back to an integer target. -/
theorem setChildTarget_inherit_or_retarget (cc : ChainConstants)
    (bm : Nat → ProcessedBlock) (pb : ProcessedBlock) :
    (pb.Height % (cc.TargetWindow / 2) ≠ 0 →
      setChildTarget cc bm pb =
        some { pb with ChildTarget := (bm pb.block.parentID).ChildTarget }) ∧
    (∀ base, pb.Height % (cc.TargetWindow / 2) = 0 →
      targetAdjustmentBase cc bm pb = some base →
      setChildTarget cc bm pb =
        some { pb with
          ChildTarget := RatToTarget (((bm pb.block.parentID).ChildTarget : ℚ) *
            clampTargetAdjustment cc base) }) := by
  constructor
  · intro h
    simp only [setChildTarget, if_pos h]
  · intro base h hbase
    simp only [setChildTarget, hbase]
    rw [if_neg (fun hne => hne h)]

/-- The concrete three-block chain used by the retarget witnesses: genesis
(ID 1, timestamp 100), a middle block (ID 2, timestamp 110) and a tip
(ID 3, timestamp 125). -/
def pbGen : ProcessedBlock :=
  { block := { parentID := 0, timestamp := 100, id := 1 }
    Height := 0, Depth := 5000, ChildTarget := 5000 }

/-- The middle block of the witness chain. -/
def pbMid : ProcessedBlock :=
  { block := { parentID := 1, timestamp := 110, id := 2 }
    Height := 1, Depth := 4000, ChildTarget := 5000 }

/-- The tip of the witness chain. -/
def pbTip : ProcessedBlock :=
  { block := { parentID := 2, timestamp := 125, id := 3 }
    Height := 2, Depth := 3000, ChildTarget := 5000 }

/-- The block map of the witness chain. -/
def bmW : Nat → ProcessedBlock :=
  fun x => if x = 1 then pbGen else if x = 2 then pbMid else pbTip

/-- Witness constants with a target window of 2 blocks. -/
def ccTW2 : ChainConstants :=
  { TargetWindow := 2, BlockFrequency := 12
    MaxAdjustmentUp := 120 / 100, MaxAdjustmentDown := 100 / 120 }

/-- Witness constants with a target window of 6 blocks. -/
def ccTW6 : ChainConstants :=
  { TargetWindow := 6, BlockFrequency := 12
    MaxAdjustmentUp := 120 / 100, MaxAdjustmentDown := 100 / 120 }

/-- Witness for C4: the middle block (height 1, window 6) inherits its
parent's child target; the tip (height 2, window 2) retargets with the
clamped adjustment of the computed base `25/24`. -/
theorem setChildTarget_inherit_or_retarget_witness :
    setChildTarget ccTW6 bmW pbMid =
      some { pbMid with ChildTarget := (bmW pbMid.block.parentID).ChildTarget } ∧
    setChildTarget ccTW2 bmW pbTip =
      some { pbTip with
        ChildTarget := RatToTarget (((bmW pbTip.block.parentID).ChildTarget : ℚ) *
          clampTargetAdjustment ccTW2 (25 / 24)) } := by
  constructor
  · exact (setChildTarget_inherit_or_retarget ccTW6 bmW pbMid).1 (by decide)
  · refine (setChildTarget_inherit_or_retarget ccTW2 bmW pbTip).2 (25 / 24) (by decide) ?_
    norm_num [targetAdjustmentBase, tabWindow, tabLoop, subU64, bmW, pbTip, pbMid, pbGen,
      ccTW2, toInt64, U64]

/-- `setChildTarget` only ever rewrites the `ChildTarget` field: the height,
depth and block of the node pass through unchanged. -/
lemma setChildTarget_fields (cc : ChainConstants) (bm : Nat → ProcessedBlock)
    (pb pb' : ProcessedBlock) (h : setChildTarget cc bm pb = some pb') :
    pb'.Height = pb.Height ∧ pb'.Depth = pb.Depth ∧ pb'.block = pb.block := by
  unfold setChildTarget at h
  split_ifs at h with hc
  · simp only [Option.some.injEq] at h
    subst h
    exact ⟨rfl, rfl, rfl⟩
  · cases htab : targetAdjustmentBase cc bm pb with
    | none => rw [htab] at h; exact absurd h (by simp)
    | some base =>
      rw [htab] at h
      simp only [Option.some.injEq] at h
      subst h
      exact ⟨rfl, rfl, rfl⟩

/-- Adding a difficulty contribution to a positive depth target never raises
the target value: the accumulated weight is non-decreasing. -/
lemma childDepth_le (pb : ProcessedBlock) (hd : 0 < pb.Depth) :
    childDepth pb ≤ pb.Depth := by
  unfold childDepth AddDifficulties RatToTarget
  have hd0 : (0 : ℚ) < (pb.Depth : ℚ) := by exact_mod_cast hd
  have key : 1 / (1 / (pb.Depth : ℚ) + 1 / (pb.ChildTarget : ℚ)) ≤ (pb.Depth : ℚ) := by
    by_cases ht : (pb.ChildTarget : ℚ) = 0
    · rw [ht]
      simp [one_div_one_div]
    · have ht0 : (0 : ℚ) < (pb.ChildTarget : ℚ) :=
        lt_of_le_of_ne (by positivity) (Ne.symm ht)
      have hsum : 1 / (pb.Depth : ℚ) ≤ 1 / (pb.Depth : ℚ) + 1 / (pb.ChildTarget : ℚ) :=
        le_add_of_nonneg_right (by positivity)
      calc 1 / (1 / (pb.Depth : ℚ) + 1 / (pb.ChildTarget : ℚ))
          ≤ 1 / (1 / (pb.Depth : ℚ)) := by
            apply one_div_le_one_div_of_le (by positivity) hsum
        _ = (pb.Depth : ℚ) := one_div_one_div _
  have hfloor : ⌊1 / (1 / (pb.Depth : ℚ) + 1 / (pb.ChildTarget : ℚ))⌋ ≤ (pb.Depth : Int) := by
    calc ⌊1 / (1 / (pb.Depth : ℚ) + 1 / (pb.ChildTarget : ℚ))⌋
        ≤ ⌊(pb.Depth : ℚ)⌋ := Int.floor_le_floor key
      _ = (pb.Depth : Int) := Int.floor_natCast _
  exact le_trans (min_le_left _ _) (Int.toNat_le.mpr hfloor)

/-- C6: every child `newChild` builds has height `parent.Height + 1` (the
wrapping `uint64` increment, equal to the plain successor whenever the parent
height is below `2^64 - 1`) and depth `parent.childDepth()`; and with a
positive parent depth target the child's depth target never exceeds the
parent's, so accumulated weight is non-decreasing along every
parent-to-child edge. -/
theorem newChild_height_depth (cc : ChainConstants) (bm : Nat → ProcessedBlock)
    (pb : ProcessedBlock) (b : Block) (child : ProcessedBlock)
    (h : newChild cc bm pb b = some child) :
    child.Height = (pb.Height + 1) % U64 ∧
    (pb.Height + 1 < U64 → child.Height = pb.Height + 1) ∧
    child.Depth = childDepth pb ∧
    (0 < pb.Depth → child.Depth ≤ pb.Depth) := by
  unfold newChild at h
  have hf := setChildTarget_fields cc bm _ child h
  refine ⟨hf.1, fun hb => ?_, hf.2.1, fun hd => ?_⟩
  · rw [hf.1]
    exact Nat.mod_eq_of_lt hb
  · rw [hf.2.1]
    exact childDepth_le pb hd

/-- The block of the C6 witness child. -/
def blkTip : Block := { parentID := 2, timestamp := 125, id := 3 }

/-- The node `newChild` builds on top of `pbMid` for `blkTip` under the
window-6 constants (an inherit boundary, so the child target is copied). -/
def childW : ProcessedBlock :=
  { block := blkTip, Height := 2, Depth := childDepth pbMid, ChildTarget := 5000 }

/-- Witness for C6 at the concrete chain: the child of `pbMid`. -/
theorem newChild_height_depth_witness :
    childW.Height = (pbMid.Height + 1) % U64 ∧
    (pbMid.Height + 1 < U64 → childW.Height = pbMid.Height + 1) ∧
    childW.Depth = childDepth pbMid ∧
    (0 < pbMid.Depth → childW.Depth ≤ pbMid.Depth) :=
  newChild_height_depth ccTW6 bmW pbMid blkTip childW rfl

/-- The retarget walk stops immediately on a zero parent ID. -/
lemma tabLoop_zero (bm : Nat → ProcessedBlock) (fuel current : Nat) :
    tabLoop bm fuel current 0 = (current, 0) := by
  cases fuel <;> simp [tabLoop]

/-- `toInt64` is the identity embedding below `2^63`. -/
lemma toInt64_small (m : Nat) (h : m < 2 ^ 63) : toInt64 m = (m : Int) := by
  unfold toInt64
  have hm : m % U64 = m := Nat.mod_eq_of_lt (lt_trans h (by norm_num [U64]))
  rw [hm, if_pos h]

/-- Characterization of the retarget walk along an explicit ancestor chain:
`anc 0` is the node's parent and `anc (i+1)` the parent of `anc i`; the chain
reaches the genesis block at index `n - 1` (so `anc n` is the zero ID) and
every earlier ID is non-zero.  With positive fuel the loop performs
`min fuel n` iterations and stops on the `min fuel n`-th ancestor. -/
lemma tabLoop_chain (bm : Nat → ProcessedBlock) :
    ∀ (fuel : Nat) (anc : Nat → Nat) (n current : Nat),
      1 ≤ n → 1 ≤ fuel →
      (∀ i, i < n → anc i ≠ 0) →
      anc n = 0 →
      (∀ i, i < n → (bm (anc i)).block.parentID = anc (i + 1)) →
      tabLoop bm fuel current (anc 0) = (anc (min fuel n - 1), min fuel n) := by
  intro fuel
  induction fuel with
  | zero =>
    intro anc n current hn hf hnz hgen hlink
    exact absurd hf (by omega)
  | succ fuel ih =>
    intro anc n current hn _ hnz hgen hlink
    rw [tabLoop, if_neg (hnz 0 hn)]
    simp only []
    rw [hlink 0 hn]
    by_cases hn1 : n = 1
    · subst hn1
      rw [hgen, tabLoop_zero]
      have h1 : min (fuel + 1) 1 = 1 := by omega
      rw [h1]
    · have hn2 : 2 ≤ n := by omega
      by_cases hf0 : fuel = 0
      · subst hf0
        rw [tabLoop]
        have h1 : min 1 n = 1 := by omega
        rw [h1]
      · have hrec := ih (fun i => anc (i + 1)) (n - 1) (anc 0)
          (by omega) (by omega)
          (fun i hi => hnz (i + 1) (by omega))
          (by have : n - 1 + 1 = n := by omega
              simp only [this, hgen])
          (fun i hi => hlink (i + 1) (by omega))
        simp only [] at hrec
        rw [hrec]
        have e1 : min fuel (n - 1) - 1 + 1 = min (fuel + 1) n - 1 := by omega
        have e2 : min fuel (n - 1) + 1 = min (fuel + 1) n := by omega
        rw [e1, e2]

/-- C2 (amended): along an explicit ancestor chain of length `n` the retarget
walk visits `min TargetWindow n` ancestors, stopping early at genesis, and —
absent `uint64` wraps — `targetAdjustmentBase` returns exactly the rational
`(nodeTimestamp − windowStartTimestamp) / (BlockFrequency · windowSize)`: the
numerator subtracts the window-start timestamp from the timestamp of the node
itself, not from the timestamp of the node's immediate parent. -/
theorem targetAdjustmentBase_exact_ratio (cc : ChainConstants)
    (bm : Nat → ProcessedBlock) (pb : ProcessedBlock) (anc : Nat → Nat) (n : Nat)
    (htw : 1 ≤ cc.TargetWindow) (hn : 1 ≤ n)
    (h0 : anc 0 = pb.block.parentID)
    (hnz : ∀ i, i < n → anc i ≠ 0)
    (hgen : anc n = 0)
    (hlink : ∀ i, i < n → (bm (anc i)).block.parentID = anc (i + 1))
    (hts : (bm (anc (min cc.TargetWindow n - 1))).block.timestamp ≤ pb.block.timestamp)
    (hub : pb.block.timestamp < U64)
    (hdiff : pb.block.timestamp -
      (bm (anc (min cc.TargetWindow n - 1))).block.timestamp < 2 ^ 63)
    (hfreq : 0 < cc.BlockFrequency * min cc.TargetWindow n)
    (hfub : cc.BlockFrequency * min cc.TargetWindow n < 2 ^ 63) :
    tabWindow cc bm pb = (anc (min cc.TargetWindow n - 1), min cc.TargetWindow n) ∧
    targetAdjustmentBase cc bm pb =
      some (((pb.block.timestamp -
          (bm (anc (min cc.TargetWindow n - 1))).block.timestamp : Nat) : ℚ) /
        ((cc.BlockFrequency * min cc.TargetWindow n : Nat) : ℚ)) := by
  have hw : tabWindow cc bm pb = (anc (min cc.TargetWindow n - 1), min cc.TargetWindow n) := by
    unfold tabWindow
    rw [← h0]
    exact tabLoop_chain bm cc.TargetWindow anc n pb.block.id hn htw hnz hgen hlink
  refine ⟨hw, ?_⟩
  have hU : U64 = 18446744073709551616 := by norm_num [U64]
  have hstub : (bm (anc (min cc.TargetWindow n - 1))).block.timestamp < U64 :=
    lt_of_le_of_lt hts hub
  have hsub : subU64 pb.block.timestamp
      (bm (anc (min cc.TargetWindow n - 1))).block.timestamp =
      pb.block.timestamp - (bm (anc (min cc.TargetWindow n - 1))).block.timestamp := by
    simp only [subU64]
    rw [Nat.mod_eq_of_lt hub, Nat.mod_eq_of_lt hstub]
    rw [hU] at hub hstub ⊢
    omega
  have hexp : (cc.BlockFrequency * min cc.TargetWindow n) % U64 =
      cc.BlockFrequency * min cc.TargetWindow n :=
    Nat.mod_eq_of_lt (lt_trans hfub (by norm_num [U64]))
  simp only [targetAdjustmentBase, hw, hsub, hexp]
  rw [toInt64_small _ hfub, toInt64_small _ hdiff]
  rw [if_neg (by exact_mod_cast Nat.pos_iff_ne_zero.mp hfreq)]
  push_cast
  rfl

/-- The ancestor chain of the witness tip: parent 2, grandparent 1 (genesis),
then the zero ID. -/
def ancW : Nat → Nat := fun i => if i = 0 then 2 else if i = 1 then 1 else 0

/-- Witness for the amended C2 at the concrete three-block chain: the walk
visits 2 ancestors and the ratio is `(125 - 100) / (12 * 2)`. -/
theorem targetAdjustmentBase_exact_ratio_witness :
    tabWindow ccTW2 bmW pbTip =
      (ancW (min ccTW2.TargetWindow 2 - 1), min ccTW2.TargetWindow 2) ∧
    targetAdjustmentBase ccTW2 bmW pbTip =
      some (((pbTip.block.timestamp -
          (bmW (ancW (min ccTW2.TargetWindow 2 - 1))).block.timestamp : Nat) : ℚ) /
        ((ccTW2.BlockFrequency * min ccTW2.TargetWindow 2 : Nat) : ℚ)) :=
  targetAdjustmentBase_exact_ratio ccTW2 bmW pbTip ancW 2
    (by decide) (by decide) (by decide) (by decide) (by decide) (by decide)
    (by decide) (by decide) (by decide) (by decide) (by decide)

/-- Counterexample to C2 as stated: on the concrete three-block chain the
walk stops on the genesis block (timestamp 100) after two steps, and the
function returns `(125 - 100) / (12 * 2) = 25/24`, computed from the tip's
own timestamp 125 — not `(110 - 100) / (12 * 2) = 10/24`, the value that
"the timestamp of the node's immediate parent" (110) would give. -/
theorem targetAdjustmentBase_parent_timestamp_counterexample :
    targetAdjustmentBase ccTW2 bmW pbTip = some (25 / 24) ∧
    ¬ targetAdjustmentBase ccTW2 bmW pbTip =
        some ((((bmW pbTip.block.parentID).block.timestamp -
            (bmW (tabWindow ccTW2 bmW pbTip).1).block.timestamp : Nat) : ℚ) /
          ((ccTW2.BlockFrequency * (tabWindow ccTW2 bmW pbTip).2 : Nat) : ℚ)) := by
  constructor
  · norm_num [targetAdjustmentBase, tabWindow, tabLoop, subU64, bmW, pbTip, pbMid,
      pbGen, ccTW2, toInt64, U64]
  · norm_num [targetAdjustmentBase, tabWindow, tabLoop, subU64, bmW, pbTip, pbMid,
      pbGen, ccTW2, toInt64, U64]

/-- C9: when a node's timestamp lies strictly before the window-start
timestamp, the `uint64` subtraction in `targetAdjustmentBase` wraps modulo
`2^64`: the computed `timePassed` is `nodeTS + 2^64 - startTS`, which as an
integer differs from the true (negative) elapsed time; the returned ratio is
built from the `int64` reinterpretation of that wrapped value — positive
(sign flipped) whenever the deficit exceeds `2^63` — and the function reports
no error. -/
theorem targetAdjustmentBase_wraparound (cc : ChainConstants)
    (bm : Nat → ProcessedBlock) (pb : ProcessedBlock)
    (hts : pb.block.timestamp < (bm (tabWindow cc bm pb).1).block.timestamp)
    (hub : (bm (tabWindow cc bm pb).1).block.timestamp < U64)
    (hfreq : 0 < cc.BlockFrequency * (tabWindow cc bm pb).2)
    (hfub : cc.BlockFrequency * (tabWindow cc bm pb).2 < 2 ^ 63) :
    subU64 pb.block.timestamp (bm (tabWindow cc bm pb).1).block.timestamp =
      pb.block.timestamp + U64 - (bm (tabWindow cc bm pb).1).block.timestamp ∧
    ((pb.block.timestamp + U64 -
        (bm (tabWindow cc bm pb).1).block.timestamp : Nat) : Int) ≠
      (pb.block.timestamp : Int) - ((bm (tabWindow cc bm pb).1).block.timestamp : Int) ∧
    targetAdjustmentBase cc bm pb =
      some ((toInt64 (pb.block.timestamp + U64 -
          (bm (tabWindow cc bm pb).1).block.timestamp) : ℚ) /
        ((cc.BlockFrequency * (tabWindow cc bm pb).2 : Nat) : ℚ)) ∧
    (2 ^ 63 < (bm (tabWindow cc bm pb).1).block.timestamp - pb.block.timestamp →
      0 < toInt64 (pb.block.timestamp + U64 -
        (bm (tabWindow cc bm pb).1).block.timestamp)) := by
  have hU : U64 = 18446744073709551616 := by norm_num [U64]
  have hab : pb.block.timestamp < U64 := lt_trans hts hub
  have hsub : subU64 pb.block.timestamp (bm (tabWindow cc bm pb).1).block.timestamp =
      pb.block.timestamp + U64 - (bm (tabWindow cc bm pb).1).block.timestamp := by
    simp only [subU64]
    rw [Nat.mod_eq_of_lt hab, Nat.mod_eq_of_lt hub]
    rw [hU] at hab hub ⊢
    omega
  have hexp : (cc.BlockFrequency * (tabWindow cc bm pb).2) % U64 =
      cc.BlockFrequency * (tabWindow cc bm pb).2 :=
    Nat.mod_eq_of_lt (lt_trans hfub (by norm_num [U64]))
  refine ⟨hsub, ?_, ?_, ?_⟩
  · rw [hU] at hab hub ⊢
    omega
  · simp only [targetAdjustmentBase, hsub, hexp]
    rw [toInt64_small _ hfub]
    rw [if_neg (by exact_mod_cast Nat.pos_iff_ne_zero.mp hfreq)]
    push_cast
    rfl
  · intro hbig
    have hsmall : pb.block.timestamp + U64 -
        (bm (tabWindow cc bm pb).1).block.timestamp < 2 ^ 63 := by
      rw [hU] at hab hub ⊢
      omega
    rw [toInt64_small _ hsmall]
    have hone : 1 ≤ pb.block.timestamp + U64 -
        (bm (tabWindow cc bm pb).1).block.timestamp := by
      rw [hU] at hab hub ⊢
      omega
    exact_mod_cast hone

/-- The genesis of the C9 witness chain, carrying the later timestamp 1000. -/
def pbGenLate : ProcessedBlock :=
  { block := { parentID := 0, timestamp := 1000, id := 1 }
    Height := 0, Depth := 5000, ChildTarget := 5000 }

/-- The C9 witness node: its timestamp 500 lies before its parent's. -/
def pbEarly : ProcessedBlock :=
  { block := { parentID := 1, timestamp := 500, id := 2 }
    Height := 1, Depth := 4000, ChildTarget := 5000 }

/-- The block map of the C9 witness chain. -/
def bmLate : Nat → ProcessedBlock :=
  fun x => if x = 1 then pbGenLate else pbEarly

/-- Witness constants with a target window of 1 block. -/
def ccTW1 : ChainConstants :=
  { TargetWindow := 1, BlockFrequency := 12
    MaxAdjustmentUp := 120 / 100, MaxAdjustmentDown := 100 / 120 }

/-- Witness for C9 at the concrete backwards-timestamp chain. -/
theorem targetAdjustmentBase_wraparound_witness :
    subU64 pbEarly.block.timestamp (bmLate (tabWindow ccTW1 bmLate pbEarly).1).block.timestamp =
      pbEarly.block.timestamp + U64 -
        (bmLate (tabWindow ccTW1 bmLate pbEarly).1).block.timestamp ∧
    ((pbEarly.block.timestamp + U64 -
        (bmLate (tabWindow ccTW1 bmLate pbEarly).1).block.timestamp : Nat) : Int) ≠
      (pbEarly.block.timestamp : Int) -
        ((bmLate (tabWindow ccTW1 bmLate pbEarly).1).block.timestamp : Int) ∧
    targetAdjustmentBase ccTW1 bmLate pbEarly =
      some ((toInt64 (pbEarly.block.timestamp + U64 -
          (bmLate (tabWindow ccTW1 bmLate pbEarly).1).block.timestamp) : ℚ) /
        ((ccTW1.BlockFrequency * (tabWindow ccTW1 bmLate pbEarly).2 : Nat) : ℚ)) ∧
    (2 ^ 63 < (bmLate (tabWindow ccTW1 bmLate pbEarly).1).block.timestamp -
        pbEarly.block.timestamp →
      0 < toInt64 (pbEarly.block.timestamp + U64 -
        (bmLate (tabWindow ccTW1 bmLate pbEarly).1).block.timestamp)) :=
  targetAdjustmentBase_wraparound ccTW1 bmLate pbEarly
    (by decide) (by decide) (by decide) (by decide)

end Rivine
